import Mathlib

/-!
Verification of the log-command shim of `actions-rindeal/setup-bash-fun`.

The repository contains several near-duplicate drafts of a lightweight
reimplementation of the `@actions/core` helper library.  Following the
design document, the most complete draft — the `Core` class embedded in
`README.md` — is treated as canonical; divergences of the other drafts
(`main.js`, the unnamed part files) are noted where relevant.

The embedding is shallow: JavaScript strings become Lean `String`s,
`String.prototype.replace(/c/g, r)` for a single-character pattern `c`
becomes a character-wise substitution, the process state (environment,
standard output, file system, exit code) becomes an explicit record, and
code that throws becomes `Except`.
-/

/-- Character-wise substitution on a list of characters: every occurrence
of the character `c` is replaced by the string `r`.  This is the meaning
of the JavaScript `s.replace(/c/g, r)` calls used by the shim, all of
whose patterns are single characters. -/
def replaceChar (c : Char) (r : List Char) : List Char → List Char
  | [] => []
  | ch :: t => (if ch = c then r else [ch]) ++ replaceChar c r t

/-- `jsReplace s c r` models the JavaScript expression
`s.replace(/c/g, r)` for a single-character pattern `c`. -/
def jsReplace (s : String) (c : Char) (r : String) : String :=
  String.mk (replaceChar c r.toList s.toList)

/-- `Core.#escapeData` from README.md (identical in `main.js` and the
part files):
`s.replace(/%/g,'%25').replace(/\r/g,'%0D').replace(/\n/g,'%0A')`. -/
def escapeData (s : String) : String :=
  jsReplace (jsReplace (jsReplace s '%' "%25") '\r' "%0D") '\n' "%0A"

/-- `Core.#escapeProperty` from README.md (identical in the other
drafts): the three `escapeData` substitutions followed by
`.replace(/:/g,'%3A').replace(/,/g,'%2C')`. -/
def escapeProperty (s : String) : String :=
  jsReplace (jsReplace (escapeData s) ':' "%3A") ',' "%2C"

/-- Concatenation of the images of a character-level map; used to state
single-pass characterisations of the escape functions. -/
def concatMap (f : Char → List Char) : List Char → List Char
  | [] => []
  | c :: t => f c ++ concatMap f t

/-- The simultaneous single-character substitution that the ordered
three-pass `escapeData` turns out to implement. -/
def escCharData (c : Char) : List Char :=
  if c = '%' then "%25".toList
  else if c = '\r' then "%0D".toList
  else if c = '\n' then "%0A".toList
  else [c]

/-- The simultaneous single-character substitution that the ordered
five-pass `escapeProperty` turns out to implement. -/
def escCharProp (c : Char) : List Char :=
  if c = '%' then "%25".toList
  else if c = '\r' then "%0D".toList
  else if c = '\n' then "%0A".toList
  else if c = ':' then "%3A".toList
  else if c = ',' then "%2C".toList
  else [c]

theorem replaceChar_append (c : Char) (r : List Char) (a b : List Char) :
    replaceChar c r (a ++ b) = replaceChar c r a ++ replaceChar c r b := by
  induction a with
  | nil => rfl
  | cons ch t ih => simp [replaceChar, ih]

theorem concatMap_append (f : Char → List Char) (a b : List Char) :
    concatMap f (a ++ b) = concatMap f a ++ concatMap f b := by
  induction a with
  | nil => rfl
  | cons ch t ih => simp [concatMap, ih]

/-- Core lemma: the ordered three-pass escape equals a single
simultaneous pass.  This captures why the fixed order matters — the `%`
characters introduced by the later `%0D`/`%0A` substitutions are not
re-escaped. -/
theorem escapeData_toList (l : List Char) :
    replaceChar '\n' "%0A".toList
      (replaceChar '\r' "%0D".toList
        (replaceChar '%' "%25".toList l)) = concatMap escCharData l := by
  induction l with
  | nil => rfl
  | cons c t ih =>
    have hstep :
        replaceChar '\n' "%0A".toList
          (replaceChar '\r' "%0D".toList
            (replaceChar '%' "%25".toList (c :: t)))
        = replaceChar '\n' "%0A".toList
            (replaceChar '\r' "%0D".toList
              ((if c = '%' then "%25".toList else [c])))
          ++ replaceChar '\n' "%0A".toList
              (replaceChar '\r' "%0D".toList
                (replaceChar '%' "%25".toList t)) := by
      simp [replaceChar, replaceChar_append]
    rw [hstep, ih]
    have hhead :
        replaceChar '\n' "%0A".toList
          (replaceChar '\r' "%0D".toList
            ((if c = '%' then "%25".toList else [c]))) = escCharData c := by
      by_cases h1 : c = '%'
      · subst h1; decide
      · by_cases h2 : c = '\r'
        · subst h2; decide
        · by_cases h3 : c = '\n'
          · subst h3; decide
          · simp [escCharData, replaceChar, h1, h2, h3]
    rw [hhead]
    rfl

/-- The two extra passes of `escapeProperty`, applied after the single
simultaneous data pass, again collapse to a single simultaneous pass. -/
theorem escapeProperty_toList (l : List Char) :
    replaceChar ',' "%2C".toList
      (replaceChar ':' "%3A".toList (concatMap escCharData l))
    = concatMap escCharProp l := by
  induction l with
  | nil => rfl
  | cons c t ih =>
    have hstep :
        replaceChar ',' "%2C".toList
          (replaceChar ':' "%3A".toList (concatMap escCharData (c :: t)))
        = replaceChar ',' "%2C".toList
            (replaceChar ':' "%3A".toList (escCharData c))
          ++ replaceChar ',' "%2C".toList
              (replaceChar ':' "%3A".toList (concatMap escCharData t)) := by
      simp [concatMap, replaceChar_append]
    rw [hstep, ih]
    have hhead :
        replaceChar ',' "%2C".toList
          (replaceChar ':' "%3A".toList (escCharData c)) = escCharProp c := by
      by_cases h1 : c = '%'
      · subst h1; decide
      · by_cases h2 : c = '\r'
        · subst h2; decide
        · by_cases h3 : c = '\n'
          · subst h3; decide
          · by_cases h4 : c = ':'
            · subst h4; decide
            · by_cases h5 : c = ','
              · subst h5; decide
              · simp [escCharData, escCharProp, replaceChar, h1, h2, h3, h4, h5]
    rw [hhead]
    rfl

theorem escapeData_eq_concatMap (s : String) :
    escapeData s = String.mk (concatMap escCharData s.toList) :=
  congrArg String.mk (escapeData_toList s.toList)

theorem escapeProperty_eq_concatMap (s : String) :
    escapeProperty s = String.mk (concatMap escCharProp s.toList) := by
  calc escapeProperty s
      = String.mk (replaceChar ',' "%2C".toList
          (replaceChar ':' "%3A".toList
            (replaceChar '\n' "%0A".toList
              (replaceChar '\r' "%0D".toList
                (replaceChar '%' "%25".toList s.toList))))) := rfl
    _ = String.mk (replaceChar ',' "%2C".toList
          (replaceChar ':' "%3A".toList (concatMap escCharData s.toList))) := by
          rw [escapeData_toList]
    _ = String.mk (concatMap escCharProp s.toList) :=
          congrArg String.mk (escapeProperty_toList s.toList)

/-- C2: `escapeData` applies exactly the three substitutions
`%`→`%25`, then CR→`%0D`, then LF→`%0A`, in this fixed order; a single
application maps `"100% done\r\n"` to `"100%25 done%0D%0A"`.  The first
conjunct exhibits the ordered three-pass structure, the second conjunct
shows the ordered passes amount to one simultaneous substitution (so the
`%` introduced by the CR/LF passes is not double-escaped), and the third
conjunct is the concrete mapping. -/
theorem escapeData_three_passes :
    (∀ s : String,
      escapeData s = jsReplace (jsReplace (jsReplace s '%' "%25") '\r' "%0D") '\n' "%0A")
    ∧ (∀ s : String, escapeData s = String.mk (concatMap escCharData s.toList))
    ∧ escapeData "100% done\r\n" = "100%25 done%0D%0A" := by
  refine ⟨fun s => rfl, fun s => escapeData_eq_concatMap s, ?_⟩
  decide

/-- Separator-joining of a list of strings, the meaning of the
JavaScript `array.join(',')`. -/
def joinComma : List String → String
  | [] => ""
  | [x] => x
  | x :: xs => x ++ "," ++ joinComma xs

/-- The property part of `Core.#issueCommand` from README.md:
`Object.entries(properties).filter(([key, val]) => val)
  .map(([key, val]) => key + '=' + escapeProperty(val)).join(',')`.
Property mappings are modelled as association lists in insertion order;
a string value is truthy exactly when it is non-empty. -/
def propStr (props : List (String × String)) : String :=
  joinComma ((props.filter (fun kv => !kv.2.isEmpty)).map
    (fun kv => kv.1 ++ "=" ++ escapeProperty kv.2))

/-- The command line built by `Core.#issueCommand` from README.md:
`'::' + command + ' ' + propStr + '::' + escapeData(message)`.
(The `main.js` draft instead joins the header and the message with a
newline character; the README draft is the canonical formatter.) -/
def issueCommand (command : String) (props : List (String × String)) (message : String) : String :=
  "::" ++ command ++ " " ++ propStr props ++ "::" ++ escapeData message

/-- C3: `escapeProperty` applies the same three substitutions as
`escapeData` in the same order and then additionally replaces `:` by
`%3A` and `,` by `%2C`; in particular it maps `"a:b,c"` to
`"a%3Ab%2Cc"`.  The second conjunct again gives the simultaneous
single-pass reading of the ordered passes. -/
theorem escapeProperty_extends_escapeData :
    (∀ s : String,
      escapeProperty s = jsReplace (jsReplace (escapeData s) ':' "%3A") ',' "%2C")
    ∧ (∀ s : String, escapeProperty s = String.mk (concatMap escCharProp s.toList))
    ∧ escapeProperty "a:b,c" = "a%3Ab%2Cc" := by
  refine ⟨fun s => rfl, fun s => escapeProperty_eq_concatMap s, ?_⟩
  decide

theorem str_data_append (a b : String) : (a ++ b).data = a.data ++ b.data := rfl

/-- C1 (counterexample): with empty properties the canonical formatter
still emits a space after the command name, so
`format('error', {}, 'boom')` is `"::error ::boom"`, not the claimed
`"::error::boom"`. -/
theorem issueCommand_empty_props_cex : issueCommand "error" [] "boom" ≠ "::error::boom" := by
  decide

theorem filter_nonEmpty_idem (props : List (String × String)) :
    (props.filter (fun kv => !kv.2.isEmpty)).filter (fun kv => !kv.2.isEmpty)
      = props.filter (fun kv => !kv.2.isEmpty) := by
  rw [List.filter_filter]
  congr 1
  funext kv
  rw [Bool.and_self]

/-- C1 (amended): the formatter produces
`::{name} {prop1}={v1},{prop2}={v2}::{escapedMessage}` for non-empty
properties and `::{name} ::{escapedMessage}` — with a space after the
name — for empty properties; in particular
`format('error', {}, 'boom')` is exactly `"::error ::boom"`.
Properties are iterated in insertion order and properties with
falsy/empty values are skipped entirely. -/
theorem issueCommand_format (name : String) (props : List (String × String)) (msg : String) :
    issueCommand name props msg
      = "::" ++ name ++ " " ++ propStr props ++ "::" ++ escapeData msg
    ∧ issueCommand name [] msg = "::" ++ name ++ " ::" ++ escapeData msg
    ∧ issueCommand name props msg
        = issueCommand name (props.filter (fun kv => !kv.2.isEmpty)) msg
    ∧ ((∀ kv ∈ props, kv.2 ≠ "") →
        propStr props
          = joinComma (props.map (fun kv => kv.1 ++ "=" ++ escapeProperty kv.2)))
    ∧ issueCommand "error" [] "boom" = "::error ::boom"
    ∧ issueCommand "error" [("title", "T")] "boom" = "::error title=T::boom" := by
  refine ⟨rfl, ?_, ?_, ?_, by decide, by decide⟩
  · apply String.ext
    simp [issueCommand, str_data_append, propStr, joinComma]
  · unfold issueCommand propStr
    rw [filter_nonEmpty_idem]
  · intro h
    unfold propStr
    have hf : props.filter (fun kv => !kv.2.isEmpty) = props := by
      apply List.filter_eq_self.mpr
      intro kv hkv
      have hne := h kv hkv
      by_cases hb : kv.2.isEmpty = true
      · exact absurd ((String.isEmpty_iff kv.2).mp hb) hne
      · simpa using hb
    rw [hf]

/-- Witness for the hypothesis of the C1 theorem: on a concrete
all-non-empty property list, `propStr` emits every property in
insertion order. -/
theorem issueCommand_format_witness :
    propStr [("title", "T"), ("file", "a.js")]
      = joinComma ([("title", "T"), ("file", "a.js")].map
          (fun kv => kv.1 ++ "=" ++ escapeProperty kv.2)) :=
  (issueCommand_format "error" [("title", "T"), ("file", "a.js")] "boom").2.2.2.1 (by decide)

/-- A string free of carriage returns and line feeds. -/
def crlfFree (s : String) : Prop := ∀ c ∈ s.data, c ≠ '\r' ∧ c ≠ '\n'

instance (s : String) : Decidable (crlfFree s) :=
  inferInstanceAs (Decidable (∀ c ∈ s.data, c ≠ '\r' ∧ c ≠ '\n'))

theorem mem_concatMap {f : Char → List Char} {l : List Char} {c' : Char}
    (h : c' ∈ concatMap f l) : ∃ c ∈ l, c' ∈ f c := by
  induction l with
  | nil => simp [concatMap] at h
  | cons c t ih =>
    simp only [concatMap, List.mem_append] at h
    rcases h with h | h
    · exact ⟨c, by simp, h⟩
    · obtain ⟨d, hd, hd'⟩ := ih h
      exact ⟨d, by simp [hd], hd'⟩

theorem escCharData_no_crlf (c c' : Char) (h : c' ∈ escCharData c) :
    c' ≠ '\r' ∧ c' ≠ '\n' := by
  by_cases h1 : c = '%'
  · subst h1; simp [escCharData] at h; rcases h with rfl | rfl | rfl <;> decide
  · by_cases h2 : c = '\r'
    · subst h2; simp [escCharData] at h; rcases h with rfl | rfl | rfl <;> decide
    · by_cases h3 : c = '\n'
      · subst h3; simp [escCharData] at h; rcases h with rfl | rfl | rfl <;> decide
      · simp [escCharData, h1, h2, h3] at h
        subst h; exact ⟨h2, h3⟩

theorem escCharProp_no_crlf (c c' : Char) (h : c' ∈ escCharProp c) :
    c' ≠ '\r' ∧ c' ≠ '\n' := by
  by_cases h1 : c = '%'
  · subst h1; simp [escCharProp] at h; rcases h with rfl | rfl | rfl <;> decide
  · by_cases h2 : c = '\r'
    · subst h2; simp [escCharProp] at h; rcases h with rfl | rfl | rfl <;> decide
    · by_cases h3 : c = '\n'
      · subst h3; simp [escCharProp] at h; rcases h with rfl | rfl | rfl <;> decide
      · by_cases h4 : c = ':'
        · subst h4; simp [escCharProp] at h; rcases h with rfl | rfl | rfl <;> decide
        · by_cases h5 : c = ','
          · subst h5; simp [escCharProp] at h; rcases h with rfl | rfl | rfl <;> decide
          · simp [escCharProp, h1, h2, h3, h4, h5] at h
            subst h; exact ⟨h2, h3⟩

theorem crlfFree_escapeData (s : String) : crlfFree (escapeData s) := by
  rw [escapeData_eq_concatMap]
  intro c' hc'
  obtain ⟨c, _, hc⟩ := mem_concatMap hc'
  exact escCharData_no_crlf c c' hc

theorem crlfFree_escapeProperty (s : String) : crlfFree (escapeProperty s) := by
  rw [escapeProperty_eq_concatMap]
  intro c' hc'
  obtain ⟨c, _, hc⟩ := mem_concatMap hc'
  exact escCharProp_no_crlf c c' hc

theorem crlfFree_append {a b : String} (ha : crlfFree a) (hb : crlfFree b) :
    crlfFree (a ++ b) := by
  intro c hc
  rw [str_data_append, List.mem_append] at hc
  rcases hc with hc | hc
  · exact ha c hc
  · exact hb c hc

theorem crlfFree_joinComma (ps : List String) (h : ∀ p ∈ ps, crlfFree p) :
    crlfFree (joinComma ps) := by
  induction ps with
  | nil => intro c hc; simp [joinComma] at hc
  | cons x xs ih =>
    cases xs with
    | nil => simpa [joinComma] using h x (by simp)
    | cons y t =>
      have hx : crlfFree x := h x (by simp)
      have hrest : crlfFree (joinComma (y :: t)) :=
        ih (fun p hp => h p (by simp [hp]))
      exact crlfFree_append (crlfFree_append hx (by decide)) hrest

theorem crlfFree_propStr (props : List (String × String))
    (hk : ∀ kv ∈ props, crlfFree kv.1) : crlfFree (propStr props) := by
  apply crlfFree_joinComma
  intro p hp
  rw [List.mem_map] at hp
  obtain ⟨kv, hkv, rfl⟩ := hp
  have hkv' : kv ∈ props := (List.mem_filter.mp hkv).1
  exact crlfFree_append (crlfFree_append (hk kv hkv') (by decide))
    (crlfFree_escapeProperty kv.2)

/-- C10: the escape functions remove every carriage return and line
feed, so the formatted command line contains none — regardless of the
message and property values — as long as the caller-fixed command name
and property keys are themselves single-line. -/
theorem issueCommand_single_line :
    (∀ s : String, crlfFree (escapeData s))
    ∧ (∀ s : String, crlfFree (escapeProperty s))
    ∧ ∀ (name : String) (props : List (String × String)) (msg : String),
        crlfFree name → (∀ kv ∈ props, crlfFree kv.1) →
        crlfFree (issueCommand name props msg) := by
  refine ⟨crlfFree_escapeData, crlfFree_escapeProperty, ?_⟩
  intro name props msg hn hk
  unfold issueCommand
  exact crlfFree_append (crlfFree_append (crlfFree_append
    (crlfFree_append (crlfFree_append (by decide) hn) (by decide))
    (crlfFree_propStr props hk)) (by decide)) (crlfFree_escapeData msg)

/-- Witness for C10 at a concrete input: the command line formed from a
message and a property value that both contain CR and LF characters is
itself CR/LF-free. -/
theorem issueCommand_single_line_witness :
    crlfFree (issueCommand "error" [("title", "T\r\n")] "a\r\nb") :=
  issueCommand_single_line.2.2 "error" [("title", "T\r\n")] "a\r\nb"
    (by decide) (by decide)

/-- The whitespace characters removed by the JavaScript
`String.prototype.trim` (the ASCII ones: space, tab, LF, VT, FF, CR). -/
def wsB (c : Char) : Bool :=
  c == ' ' || c == '\t' || c == '\n' || c == '\r'
    || c == Char.ofNat 11 || c == Char.ofNat 12

def dropLeadWs (l : List Char) : List Char := l.dropWhile wsB

def dropTrailWs (l : List Char) : List Char := (l.reverse.dropWhile wsB).reverse

/-- The JavaScript `s.trim()`: surrounding whitespace removed. -/
def jsTrim (s : String) : String := String.mk (dropTrailWs (dropLeadWs s.data))

/-- The environment key consulted by `Core.getInput` from README.md:
`'INPUT_'` followed by the name with every hyphen replaced by an
underscore (a global regex replace) and then `.toUpperCase()`. -/
def inputKey (name : String) : String :=
  "INPUT_" ++ String.mk ((name.data.map (fun c => if c = '-' then '_' else c)).map Char.toUpper)

/-- `Core.getInput` from README.md (identical in `main.js`):
`const val = process.env[key] || ''`, then
`if (required && !val) throw new Error(...)`, then `return val.trim()`.
The process environment is an association list; an unset variable is an
absent key. -/
def getInput (env : List (String × String)) (name : String) (required : Bool) :
    Except String String :=
  if required && ((env.lookup (inputKey name)).getD "").isEmpty then
    Except.error ("Input required and not supplied: " ++ name)
  else
    Except.ok (jsTrim ((env.lookup (inputKey name)).getD ""))

theorem dropWhile_head_not (p : Char → Bool) (l : List Char) (c : Char)
    (h : (l.dropWhile p).head? = some c) : p c = false := by
  induction l with
  | nil => simp [List.dropWhile] at h
  | cons a t ih =>
    by_cases hp : p a = true
    · rw [List.dropWhile_cons_of_pos hp] at h; exact ih h
    · rw [List.dropWhile_cons_of_neg hp] at h
      simp at h
      subst h
      simpa using hp

theorem dropWhile_exists_append (p : Char → Bool) (l : List Char) :
    ∃ s, s ++ l.dropWhile p = l := by
  induction l with
  | nil => exact ⟨[], rfl⟩
  | cons a t ih =>
    by_cases hp : p a = true
    · obtain ⟨s, hs⟩ := ih
      exact ⟨a :: s, by rw [List.dropWhile_cons_of_pos hp]; simpa using hs⟩
    · exact ⟨[], by rw [List.dropWhile_cons_of_neg hp]; rfl⟩

theorem getLast_dropTrailWs (l : List Char) (c : Char)
    (h : (dropTrailWs l).getLast? = some c) : wsB c = false := by
  unfold dropTrailWs at h
  rw [List.getLast?_reverse] at h
  exact dropWhile_head_not wsB l.reverse c h

theorem head_dropTrailWs (l : List Char)
    (hl : ∀ c, l.head? = some c → wsB c = false) (c : Char)
    (h : (dropTrailWs l).head? = some c) : wsB c = false := by
  obtain ⟨s, hs⟩ := dropWhile_exists_append wsB l.reverse
  have hsplit : dropTrailWs l ++ s.reverse = l := by
    unfold dropTrailWs
    rw [← List.reverse_append, hs, List.reverse_reverse]
  apply hl c
  rw [← hsplit, List.head?_append, h]
  rfl

theorem jsTrim_head (s : String) (c : Char)
    (h : (jsTrim s).data.head? = some c) : wsB c = false := by
  have hlead : ∀ d, (dropLeadWs s.data).head? = some d → wsB d = false :=
    fun d hd => dropWhile_head_not wsB s.data d hd
  exact head_dropTrailWs (dropLeadWs s.data) hlead c h

theorem jsTrim_last (s : String) (c : Char)
    (h : (jsTrim s).data.getLast? = some c) : wsB c = false :=
  getLast_dropTrailWs (dropLeadWs s.data) c h

theorem jsTrim_all_ws (s : String) (h : ∀ c ∈ s.data, wsB c = true) :
    jsTrim s = "" := by
  have hlead : dropLeadWs s.data = [] := by
    unfold dropLeadWs
    rw [List.dropWhile_eq_nil_iff]
    exact h
  unfold jsTrim
  rw [hlead]
  decide

/-- C4: `getInput` reads `INPUT_` + the name with hyphens replaced by
underscores and uppercased (so input `foo-bar` reads `INPUT_FOO_BAR`);
an absent variable with `required = true` raises the configuration
error, an absent variable with `required = false` yields the empty
string, and every returned value carries no surrounding whitespace (so
`INPUT_MY_NAME=" value "` yields `"value"`). -/
theorem getInput_spec (env : List (String × String)) (name : String) :
    inputKey "foo-bar" = "INPUT_FOO_BAR"
    ∧ (env.lookup (inputKey name) = none →
        getInput env name true
            = Except.error ("Input required and not supplied: " ++ name)
        ∧ getInput env name false = Except.ok "")
    ∧ (∀ (required : Bool) (r : String), getInput env name required = Except.ok r →
        (∀ c, r.data.head? = some c → wsB c = false)
        ∧ (∀ c, r.data.getLast? = some c → wsB c = false))
    ∧ getInput [("INPUT_MY_NAME", " value ")] "my-name" true = Except.ok "value" := by
  refine ⟨by decide, ?_, ?_, by rfl⟩
  · intro h
    constructor <;> simp [getInput, h] <;> decide
  · intro required r hr
    unfold getInput at hr
    by_cases hcond : required && ((env.lookup (inputKey name)).getD "").isEmpty
    · rw [if_pos hcond] at hr; cases hr
    · rw [if_neg hcond] at hr
      have hr' : jsTrim ((env.lookup (inputKey name)).getD "") = r :=
        Except.ok.inj hr
      subst hr'
      exact ⟨jsTrim_head _, jsTrim_last _⟩

/-- Witness for C4 at concrete inputs: the absent-and-required case
raises, and the absent-and-optional case yields the empty string. -/
theorem getInput_spec_witness :
    getInput [] "foo-bar" true
        = Except.error ("Input required and not supplied: " ++ "foo-bar")
    ∧ getInput [] "foo-bar" false = Except.ok "" :=
  (getInput_spec [] "foo-bar").2.1 rfl

/-- C9: a variable set to a non-empty all-whitespace string passes the
required check (which inspects the untrimmed value) and is then trimmed
to the empty string, so `getInput(name, true)` returns `""` without
raising. -/
theorem getInput_required_whitespace (env : List (String × String)) (name w : String)
    (hw : env.lookup (inputKey name) = some w) (hne : w ≠ "")
    (hws : ∀ c ∈ w.data, wsB c = true) :
    getInput env name true = Except.ok "" := by
  have hempty : w.isEmpty = false := by
    by_cases hb : w.isEmpty = true
    · exact absurd ((String.isEmpty_iff w).mp hb) hne
    · simpa using hb
  unfold getInput
  rw [hw]
  simp only [Option.getD_some, hempty, Bool.and_false, if_neg (by simp : ¬(false = true))]
  rw [jsTrim_all_ws w hws]

/-- Witness for C9: `INPUT_X` set to two spaces, `required = true`,
returns the empty string rather than raising. -/
theorem getInput_required_whitespace_witness :
    getInput [("INPUT_X", "  ")] "x" true = Except.ok "" :=
  getInput_required_whitespace [("INPUT_X", "  ")] "x" "  " (by decide) (by decide) (by decide)

/-- Interpretation of a natural number as a JavaScript 32-bit signed
integer (the result type of the JS bitwise operators). -/
def toInt32 (n : Nat) : Int :=
  if n % 4294967296 < 2147483648 then ((n % 4294967296 : Nat) : Int)
  else ((n % 4294967296 : Nat) : Int) - 4294967296

def hexDigitChar (n : Nat) : Char := Char.ofNat (if n < 10 then 48 + n else 87 + n)

def hexNatCore : Nat → Nat → List Char → List Char
  | 0, _, acc => acc
  | fuel + 1, n, acc =>
    if n = 0 then acc else hexNatCore fuel (n / 16) (hexDigitChar (n % 16) :: acc)

/-- Lowercase unpadded hexadecimal rendering of a natural number. -/
def hexNat (n : Nat) : String :=
  if n = 0 then "0" else String.mk (hexNatCore (n + 1) n [])

/-- The JavaScript `Number.prototype.toString(16)` on a 32-bit signed
integer: lowercase unpadded hex, a negative value rendered as a minus
sign followed by the hex of its magnitude. -/
def jsHex (i : Int) : String :=
  if i < 0 then "-" ++ hexNat i.natAbs else hexNat i.natAbs

/-- `Core.uuidv4` from README.md, with the sixteen `crypto.randomBytes`
modelled as an explicit input.  JS semantics preserved exactly: shift
counts are taken mod 32 (so the source's `bytes[14] << 32` is a shift
by 0 and `bytes[15] << 40` a shift by 8), the bitwise ORs act on 32-bit
two's-complement values, and each group is rendered with unpadded
`toString(16)`. -/
def uuidv4 (bytes : List Nat) : String :=
  let b := fun i => bytes.getD i 0
  let b6 := ((b 6) &&& 15) ||| 64
  let b8 := ((b 8) &&& 63) ||| 128
  let p1 := toInt32 ((b 0) ||| ((b 1) <<< 8) ||| ((b 2) <<< 16) ||| ((b 3) <<< 24))
  let p2 := toInt32 ((b 4) ||| ((b 5) <<< 8))
  let p3 := toInt32 (b6 ||| ((b 7) <<< 8))
  let p4 := toInt32 (b8 ||| ((b 9) <<< 8))
  let p5 := toInt32 ((b 10) ||| ((b 11) <<< 8) ||| ((b 12) <<< 16)
    ||| ((b 13) <<< 24) ||| (b 14) ||| ((b 15) <<< 8))
  jsHex p1 ++ "-" ++ jsHex p2 ++ "-" ++ jsHex p3 ++ "-" ++ jsHex p4 ++ "-" ++ jsHex p5

/-- The platform line terminator `os.EOL`; the POSIX platform is
modelled. -/
def osEOL : String := "\n"

/-- JavaScript values flowing into `Core.#toCommandValue`: `null` (and
`undefined`) or a string.  The non-string JSON.stringify branch is not
exercised by any claim and is not modelled. -/
inductive JsVal where
  | null : JsVal
  | str : String → JsVal
deriving DecidableEq

/-- `Core.#toCommandValue` from README.md: nullish values become the
empty string, strings pass through unchanged. -/
def toCommandValue : JsVal → String
  | JsVal.null => ""
  | JsVal.str s => s

/-- `Core.#prepareKeyValueMessage` from README.md:
`key + '<<' + delimiter + os.EOL + toCommandValue(value) + os.EOL +
delimiter` with `delimiter = 'ghadelimiter_' + uuidv4()`. -/
def prepareKeyValueMessage (bytes : List Nat) (key : String) (value : JsVal) : String :=
  key ++ "<<" ++ ("ghadelimiter_" ++ uuidv4 bytes) ++ osEOL
    ++ toCommandValue value ++ osEOL ++ ("ghadelimiter_" ++ uuidv4 bytes)

def isHexLowerDigit (c : Char) : Bool :=
  (decide ('0' ≤ c) && decide (c ≤ '9')) || (decide ('a' ≤ c) && decide (c ≤ 'f'))

/-- Modelled from the spec: the canonical textual form of an RFC 4122
version-4 UUID, which the claim (and the doc comment of `Core.uuidv4`)
say the token contains — 36 characters, dashes at positions 8, 13, 18
and 23, the version character `4` at position 14, a variant character
in `8`/`9`/`a`/`b` at position 19, lowercase hex digits elsewhere. -/
def uuidV4Format (s : String) : Bool :=
  decide (s.data.length = 36) &&
  (List.range 36).all (fun i =>
    let c := s.data.getD i ' '
    if i = 8 || i = 13 || i = 18 || i = 23 then c == '-'
    else if i = 14 then c == '4'
    else if i = 19 then c == '8' || c == '9' || c == 'a' || c == 'b'
    else isHexLowerDigit c)

/-- C5 (code evaluated at the failing input): with the sixteen random
bytes all `0xff`, the delimiter token is
`ghadelimiter_-1-ffff-ff4f-ffbf--1` — the 32-bit arithmetic makes the
first and last groups render as `-1`, groups are unpadded and the
version nibble sits in the wrong half of its group — so the token is
not `ghadelimiter_` followed by an RFC 4122 version-4 UUID, contrary to
the claim and to the source's own doc comment on `uuidv4`.  The
surrounding three-line `key<<token` / value / `token` shape does
hold. -/
theorem prepareKeyValueMessage_uuid_bug :
    uuidv4 (List.replicate 16 255) = "-1-ffff-ff4f-ffbf--1"
    ∧ uuidV4Format "-1-ffff-ff4f-ffbf--1" = false
    ∧ prepareKeyValueMessage (List.replicate 16 255) "x" (JsVal.str "hello")
        = "x<<" ++ "ghadelimiter_-1-ffff-ff4f-ffbf--1" ++ osEOL ++ "hello"
          ++ osEOL ++ "ghadelimiter_-1-ffff-ff4f-ffbf--1" := by
  refine ⟨by decide, by decide, by decide⟩

/-- The process state visible to the shim: environment, standard
output (one entry per `process.stdout.write`), file system (path to
contents, an absent path meaning the file does not exist) and
`process.exitCode`. -/
structure CoreState where
  env : List (String × String)
  stdout : List String
  fs : List (String × String)
  exitCode : Nat
deriving DecidableEq

def writeStdout (st : CoreState) (s : String) : CoreState :=
  { st with stdout := st.stdout ++ [s] }

/-- `Core.#issueCommand`'s side effect:
`process.stdout.write(cmdStr + os.EOL)`. -/
def issueCmd (st : CoreState) (name : String) (props : List (String × String))
    (msg : String) : CoreState :=
  writeStdout st (issueCommand name props msg ++ osEOL)

/-- Association-list update, the meaning of overwriting a file's
contents at a path. -/
def fsSet : List (String × String) → String → String → List (String × String)
  | [], k, v => [(k, v)]
  | (k', v') :: t, k, v => if k' = k then (k, v) :: t else (k', v') :: fsSet t k v

theorem isEmpty_false_of_ne (s : String) (h : s ≠ "") : s.isEmpty = false := by
  by_cases hb : s.isEmpty = true
  · exact absurd ((String.isEmpty_iff s).mp hb) h
  · simpa using hb

/-- `Core.#issueFileCommand` from README.md: resolve the path from
`process.env['GITHUB_' + command]`, throw if that is unset (or empty),
throw if `fs.existsSync` fails, otherwise
`fs.appendFileSync(filePath, toCommandValue(message) + os.EOL)`. -/
def issueFileCommand (st : CoreState) (command : String) (message : JsVal) :
    Except String CoreState :=
  if ((st.env.lookup ("GITHUB_" ++ command)).getD "").isEmpty then
    Except.error ("Unable to find environment variable for file command " ++ command)
  else
    match st.fs.lookup ((st.env.lookup ("GITHUB_" ++ command)).getD "") with
    | none =>
        Except.error ("Missing file at path: "
          ++ (st.env.lookup ("GITHUB_" ++ command)).getD "")
    | some content =>
        Except.ok { st with
          fs := fsSet st.fs ((st.env.lookup ("GITHUB_" ++ command)).getD "")
            (content ++ toCommandValue message ++ osEOL) }

theorem lookup_fsSet (fs : List (String × String)) (k v : String) :
    (fsSet fs k v).lookup k = some v := by
  induction fs with
  | nil => simp [fsSet, List.lookup]
  | cons kv t ih =>
    obtain ⟨k', v'⟩ := kv
    by_cases hk : k' = k
    · simp [fsSet, hk, List.lookup]
    · have hk' : (k == k') = false := by
        simpa using fun h => hk h.symm
      simp [fsSet, hk, List.lookup, hk', ih]

theorem issueFileCommand_ok (st : CoreState) (channel : String) (msg : JsVal)
    (p content : String)
    (hp : st.env.lookup ("GITHUB_" ++ channel) = some p) (hne : p ≠ "")
    (hfs : st.fs.lookup p = some content) :
    issueFileCommand st channel msg
      = Except.ok { st with
          fs := fsSet st.fs p (content ++ toCommandValue msg ++ osEOL) } := by
  unfold issueFileCommand
  rw [hp]
  simp only [Option.getD_some, isEmpty_false_of_ne p hne, Bool.false_eq_true,
    if_false, hfs]

/-- C6: `issueFileCommand(channel, message)` resolves its target from
the environment variable `GITHUB_{channel}`; an unset variable or a
non-existing path raises the respective configuration error (and, the
result being an exception, no state change occurs); on success the
encoded message plus the platform terminator is appended to the
existing contents, so two successive calls accumulate both records. -/
theorem issueFileCommand_spec (st : CoreState) (channel : String) (msg : JsVal) :
    (st.env.lookup ("GITHUB_" ++ channel) = none →
      issueFileCommand st channel msg
        = Except.error ("Unable to find environment variable for file command " ++ channel))
    ∧ (∀ p, st.env.lookup ("GITHUB_" ++ channel) = some p → p ≠ "" →
        st.fs.lookup p = none →
        issueFileCommand st channel msg = Except.error ("Missing file at path: " ++ p))
    ∧ (∀ p content, st.env.lookup ("GITHUB_" ++ channel) = some p → p ≠ "" →
        st.fs.lookup p = some content →
        issueFileCommand st channel msg
          = Except.ok { st with
              fs := fsSet st.fs p (content ++ toCommandValue msg ++ osEOL) })
    ∧ (∀ p content (m2 : JsVal), st.env.lookup ("GITHUB_" ++ channel) = some p → p ≠ "" →
        st.fs.lookup p = some content →
        ∃ st1 st2, issueFileCommand st channel msg = Except.ok st1
          ∧ issueFileCommand st1 channel m2 = Except.ok st2
          ∧ st2.fs.lookup p
              = some (content ++ toCommandValue msg ++ osEOL ++ toCommandValue m2 ++ osEOL)) := by
  refine ⟨?_, ?_, ?_, ?_⟩
  · intro h
    unfold issueFileCommand
    rw [h]
    rfl
  · intro p hp hne hfs
    unfold issueFileCommand
    rw [hp]
    simp only [Option.getD_some, isEmpty_false_of_ne p hne, Bool.false_eq_true,
      if_false, hfs]
  · intro p content hp hne hfs
    exact issueFileCommand_ok st channel msg p content hp hne hfs
  · intro p content m2 hp hne hfs
    have h1 := issueFileCommand_ok st channel msg p content hp hne hfs
    have h2 := issueFileCommand_ok
      { st with fs := fsSet st.fs p (content ++ toCommandValue msg ++ osEOL) }
      channel m2 p (content ++ toCommandValue msg ++ osEOL) hp hne
      (lookup_fsSet st.fs p _)
    exact ⟨_, _, h1, h2, lookup_fsSet _ p _⟩

/-- A concrete state for the C6 witness: `GITHUB_OUTPUT` points at an
existing empty file. -/
def stEx : CoreState :=
  { env := [("GITHUB_OUTPUT", "/out")], stdout := [], fs := [("/out", "")], exitCode := 0 }

/-- Witness for C6 at a concrete state: appending to the existing file
named by `GITHUB_OUTPUT` succeeds and accumulates both records. -/
theorem issueFileCommand_spec_witness :
    ∃ st1 st2, issueFileCommand stEx "OUTPUT" (JsVal.str "a") = Except.ok st1
      ∧ issueFileCommand st1 "OUTPUT" (JsVal.str "b") = Except.ok st2
      ∧ st2.fs.lookup "/out"
          = some ("" ++ toCommandValue (JsVal.str "a") ++ osEOL
              ++ toCommandValue (JsVal.str "b") ++ osEOL) :=
  (issueFileCommand_spec stEx "OUTPUT" (JsVal.str "a")).2.2.2 "/out" "" (JsVal.str "b")
    rfl (by decide) rfl

/-- `Core.debug` from README.md. -/
def debug (st : CoreState) (msg : String) : CoreState := issueCmd st "debug" [] msg

/-- `Core.info` from README.md: `process.stdout.write(message + os.EOL)`. -/
def info (st : CoreState) (msg : String) : CoreState := writeStdout st (msg ++ osEOL)

/-- `Core.error` from README.md: issue an `error` command whose
properties are the present fields of the supplied record (modelled as
an association list of the string-rendered fields, empty for `{}`). -/
def errorAnn (st : CoreState) (props : List (String × String)) (msg : String) : CoreState :=
  issueCmd st "error" props msg

/-- `Core.warning` from README.md. -/
def warningAnn (st : CoreState) (props : List (String × String)) (msg : String) : CoreState :=
  issueCmd st "warning" props msg

/-- `Core.notice` from README.md. -/
def noticeAnn (st : CoreState) (props : List (String × String)) (msg : String) : CoreState :=
  issueCmd st "notice" props msg

/-- `Core.startGroup` from README.md. -/
def startGroup (st : CoreState) (name : String) : CoreState := issueCmd st "group" [] name

/-- `Core.endGroup` from README.md; its message argument defaults to
the empty string. -/
def endGroup (st : CoreState) : CoreState := issueCmd st "endgroup" [] ""

/-- `Core.setCommandEcho` from README.md. -/
def setCommandEcho (st : CoreState) (enabled : Bool) : CoreState :=
  issueCmd st "echo" [] (if enabled then "on" else "off")

/-- `Core.setFailed` from README.md and `main.js`:
`process.exitCode = 1 ; this.error(message)` (with no properties). -/
def setFailed (st : CoreState) (msg : String) : CoreState :=
  errorAnn { st with exitCode := 1 } [] msg

/-- `Core.setOutput` from README.md:
`issueFileCommand('OUTPUT', prepareKeyValueMessage(name, value))`; the
call's fresh random bytes are an explicit input. -/
def setOutput (st : CoreState) (bytes : List Nat) (name : String) (value : JsVal) :
    Except String CoreState :=
  issueFileCommand st "OUTPUT" (JsVal.str (prepareKeyValueMessage bytes name value))

/-- `Core.saveState` from README.md. -/
def saveState (st : CoreState) (bytes : List Nat) (name : String) (value : JsVal) :
    Except String CoreState :=
  issueFileCommand st "STATE" (JsVal.str (prepareKeyValueMessage bytes name value))

/-- The state-mutating operations of the public API, used to state that
nothing after a `setFailed` resets the exit status. -/
inductive CoreOp where
  | debugOp (msg : String)
  | infoOp (msg : String)
  | errorOp (props : List (String × String)) (msg : String)
  | warningOp (props : List (String × String)) (msg : String)
  | noticeOp (props : List (String × String)) (msg : String)
  | startGroupOp (name : String)
  | endGroupOp
  | echoOp (enabled : Bool)
  | setFailedOp (msg : String)
  | setOutputOp (bytes : List Nat) (name : String) (value : JsVal)
  | saveStateOp (bytes : List Nat) (name : String) (value : JsVal)

/-- One API call acting on the process state; a file command that
throws leaves the state unchanged (the exception aborts the call before
any write). -/
def exec : CoreOp → CoreState → CoreState
  | CoreOp.debugOp m, st => debug st m
  | CoreOp.infoOp m, st => info st m
  | CoreOp.errorOp p m, st => errorAnn st p m
  | CoreOp.warningOp p m, st => warningAnn st p m
  | CoreOp.noticeOp p m, st => noticeAnn st p m
  | CoreOp.startGroupOp n, st => startGroup st n
  | CoreOp.endGroupOp, st => endGroup st
  | CoreOp.echoOp e, st => setCommandEcho st e
  | CoreOp.setFailedOp m, st => setFailed st m
  | CoreOp.setOutputOp b n v, st =>
    match setOutput st b n v with
    | Except.ok st' => st'
    | Except.error _ => st
  | CoreOp.saveStateOp b n v, st =>
    match saveState st b n v with
    | Except.ok st' => st'
    | Except.error _ => st

def execList (ops : List CoreOp) (st : CoreState) : CoreState :=
  ops.foldl (fun s op => exec op s) st

theorem issueFileCommand_ok_fields {st : CoreState} {ch : String} {m : JsVal}
    {st' : CoreState} (h : issueFileCommand st ch m = Except.ok st') :
    st'.exitCode = st.exitCode ∧ st'.env = st.env ∧ st'.stdout = st.stdout := by
  unfold issueFileCommand at h
  split at h
  · cases h
  · split at h
    · cases h
    · rw [Except.ok.injEq] at h
      subst h
      exact ⟨rfl, rfl, rfl⟩

theorem exec_keeps_failure (op : CoreOp) (st : CoreState) (h : st.exitCode = 1) :
    (exec op st).exitCode = 1 := by
  cases op with
  | debugOp m => simpa [exec, debug, issueCmd, writeStdout] using h
  | infoOp m => simpa [exec, info, writeStdout] using h
  | errorOp p m => simpa [exec, errorAnn, issueCmd, writeStdout] using h
  | warningOp p m => simpa [exec, warningAnn, issueCmd, writeStdout] using h
  | noticeOp p m => simpa [exec, noticeAnn, issueCmd, writeStdout] using h
  | startGroupOp n => simpa [exec, startGroup, issueCmd, writeStdout] using h
  | endGroupOp => simpa [exec, endGroup, issueCmd, writeStdout] using h
  | echoOp e => simpa [exec, setCommandEcho, issueCmd, writeStdout] using h
  | setFailedOp m => simp [exec, setFailed, errorAnn, issueCmd, writeStdout]
  | setOutputOp b n v =>
    simp only [exec]
    split
    · rename_i st' hst'
      rw [(issueFileCommand_ok_fields hst').1]
      exact h
    · exact h
  | saveStateOp b n v =>
    simp only [exec]
    split
    · rename_i st' hst'
      rw [(issueFileCommand_ok_fields hst').1]
      exact h
    · exact h

theorem execList_keeps_failure (ops : List CoreOp) (st : CoreState)
    (h : st.exitCode = 1) : (execList ops st).exitCode = 1 := by
  induction ops generalizing st with
  | nil => exact h
  | cons op t ih => exact ih (exec op st) (exec_keeps_failure op st h)

/-- C7: `setFailed(message)` sets the exit code to 1 (nonzero), appends
exactly one write to standard output — the `error` command line for the
message, which for `'boom'` contains `boom` verbatim — touches nothing
else, returns a state rather than terminating, and no subsequent
sequence of API operations resets the exit code to success. -/
theorem setFailed_spec (st : CoreState) (msg : String) :
    (setFailed st msg).exitCode = 1
    ∧ (setFailed st msg).stdout = st.stdout ++ [issueCommand "error" [] msg ++ osEOL]
    ∧ (setFailed st msg).env = st.env
    ∧ (setFailed st msg).fs = st.fs
    ∧ issueCommand "error" [] msg = "::error ::" ++ escapeData msg
    ∧ escapeData "boom" = "boom"
    ∧ (∀ ops : List CoreOp, (execList ops (setFailed st msg)).exitCode = 1) := by
  refine ⟨rfl, rfl, rfl, rfl, ?_, by decide, ?_⟩
  · unfold issueCommand
    rw [show ("::" ++ "error" ++ " " ++ propStr [] ++ "::") = "::error ::" from by decide]
  · intro ops
    exact execList_keeps_failure ops (setFailed st msg) rfl

/-- `Core.group` from README.md:
`this.startGroup(name) ; try { return await fn() } finally
{ this.endGroup() }`.  The asynchronous body is modelled as a state
transformer that either returns a value or raises; the `finally` block
is the `endGroup` applied on both paths. -/
def group {E A : Type} (st : CoreState) (name : String)
    (fn : CoreState → CoreState × Except E A) : CoreState × Except E A :=
  match fn (startGroup st name) with
  | (st2, Except.ok a) => (endGroup st2, Except.ok a)
  | (st2, Except.error e) => (endGroup st2, Except.error e)

/-- C8: `group(name, fn)` emits the `group` start marker before
invoking `fn` (the body runs on the state already carrying the start
marker), and emits the `endgroup` end marker afterwards in all cases —
the final stdout ends with the end-marker line whether `fn` returned or
raised — while `fn`'s outcome (result or exception) is propagated
unchanged. -/
theorem group_spec (E A : Type) (st : CoreState) (name : String)
    (fn : CoreState → CoreState × Except E A) :
    (startGroup st name).stdout = st.stdout ++ [issueCommand "group" [] name ++ osEOL]
    ∧ (group st name fn).1.stdout
        = (fn (startGroup st name)).1.stdout ++ [issueCommand "endgroup" [] "" ++ osEOL]
    ∧ (group st name fn).2 = (fn (startGroup st name)).2 := by
  refine ⟨rfl, ?_, ?_⟩
  · unfold group
    rcases hfn : fn (startGroup st name) with ⟨st2, r⟩
    cases r <;> simp [hfn, endGroup, issueCmd, writeStdout]
  · unfold group
    rcases hfn : fn (startGroup st name) with ⟨st2, r⟩
    cases r <;> simp [hfn]
